import Mathlib

/-!
# Verification of the hyrox-sim race-progress simulation engine

A shallow embedding of the course-tracker core of the repository:
the spline geometry (`generateSplinePath`, `getPositionAtProgress`,
`computeArcLengths`, `stationToProgress`), the station model
(`buildStationPoints`), and the `CourseTracker` playback engine
(`tick`, `seekTo`, `play`, `restart`, station-crossing detection and
the particle pools).

JavaScript numbers are modelled by `ℚ` (exact rational arithmetic);
the only operation that leaves the rationals is `Math.sqrt` in the
arc-length computation, which is modelled over `ℝ` with `Real.sqrt`.
Mutable engine state is modelled as a `Tracker` record threaded through
pure transition functions; `Math.random` is injected as an explicit
source `rand : ℕ → ℚ`, and `performance.now()` as an explicit `now`
argument, following the engine's frame-driven design.
-/

/-- A 2D point in percentage-of-viewport coordinates, the `{x, y}`
objects flowing through the spline utilities. -/
structure Point where
  x : ℚ
  y : ℚ
deriving DecidableEq, Repr

instance : Inhabited Point := ⟨⟨0, 0⟩⟩

/-- A station waypoint as built by `buildStationPoints`:
`{x, y, key, name, num}` (`num` is 0 for start/finish, 1..8 for numbered
stations, `-1` for the roxzone sentinel). -/
structure StationPoint where
  x : ℚ
  y : ℚ
  key : String
  name : String
  num : ℤ
deriving DecidableEq, Repr

instance : Inhabited StationPoint := ⟨⟨0, 0, "", "", 0⟩⟩

/-- `StationPoint` coordinates as a `Point`; `generateSplinePath` reads
only the `x`/`y` fields of its (duck-typed) inputs. -/
def StationPoint.toPoint (s : StationPoint) : Point := ⟨s.x, s.y⟩

/-- `catmullRomPoint(t, p0, p1, p2, p3)` from spline-utils: one point of a
Catmull-Rom segment. -/
def catmullRomPoint (t : ℚ) (p0 p1 p2 p3 : Point) : Point :=
  let t2 := t * t
  let t3 := t2 * t
  { x := (1/2) * ((2 * p1.x) + (-p0.x + p2.x) * t +
        (2 * p0.x - 5 * p1.x + 4 * p2.x - p3.x) * t2 +
        (-p0.x + 3 * p1.x - 3 * p2.x + p3.x) * t3),
    y := (1/2) * ((2 * p1.y) + (-p0.y + p2.y) * t +
        (2 * p0.y - 5 * p1.y + 4 * p2.y - p3.y) * t2 +
        (-p0.y + 3 * p1.y - 3 * p2.y + p3.y) * t3) }

/-- The two-point case of `generateSplinePath`: straight-line
interpolation, one point per `i = 0 .. segments`. -/
def linearPath (p0 p1 : Point) (segments : ℕ) : List Point :=
  (List.range (segments + 1)).map fun (i : ℕ) =>
    let t : ℚ := (i : ℚ) / (segments : ℚ)
    { x := p0.x + (p1.x - p0.x) * t, y := p0.y + (p1.y - p0.y) * t }

/-- The inner loop of `generateSplinePath` for one segment `i`:
`segments` Catmull-Rom samples at `t = s / segments`, with the clamped
control points `points[max(0, i-1)] … points[min(n-1, i+2)]`
(`ℕ` subtraction gives the `max(0, i-1)` clamp). -/
def segPoints (pts : List Point) (segments i : ℕ) : List Point :=
  (List.range segments).map fun (s : ℕ) =>
    catmullRomPoint ((s : ℚ) / (segments : ℚ))
      (pts.getD (i - 1) default) (pts.getD i default)
      (pts.getD (i + 1) default) (pts.getD (min (pts.length - 1) (i + 2)) default)

/-- `generateSplinePath(points, segments)`: fewer than 2 points are
returned verbatim (as fresh `{x, y}` copies); exactly 2 points give a
straight line; 3+ points give clamped Catmull-Rom segments followed by
the exact final point. -/
def generateSplinePath (pts : List Point) (segments : ℕ) : List Point :=
  if pts.length < 2 then pts.map fun p => { x := p.x, y := p.y }
  else if pts.length = 2 then
    linearPath (pts.getD 0 default) (pts.getD 1 default) segments
  else
    ((List.range (pts.length - 1)).map (segPoints pts segments)).flatten ++
      [{ x := (pts.getD (pts.length - 1) default).x,
         y := (pts.getD (pts.length - 1) default).y }]

/-- `getPositionAtProgress(splinePath, progress)`: clamps progress,
maps to a fractional index and linearly blends the two bracketing
samples; an empty path returns the `{50, 50}` fallback centre point. -/
def getPositionAtProgress (splinePath : List Point) (progress : ℚ) : Point :=
  if splinePath.length = 0 then { x := 50, y := 50 }
  else
    let clamped := max 0 (min 1 progress)
    let idx := clamped * ((splinePath.length : ℚ) - 1)
    let lower := (⌊idx⌋).toNat
    let upper := min (lower + 1) (splinePath.length - 1)
    let frac := idx - (lower : ℚ)
    { x := (splinePath.getD lower default).x +
        ((splinePath.getD upper default).x - (splinePath.getD lower default).x) * frac,
      y := (splinePath.getD lower default).y +
        ((splinePath.getD upper default).y - (splinePath.getD lower default).y) * frac }

/-- Euclidean distance between two consecutive path samples
(`Math.sqrt(dx*dx + dy*dy)` in `computeArcLengths`), over `ℝ`. -/
noncomputable def segDist (p q : Point) : ℝ :=
  Real.sqrt (((q.x - p.x : ℚ) : ℝ) ^ 2 + ((q.y - p.y : ℚ) : ℝ) ^ 2)

/-- The list of consecutive-sample distances along a path. -/
noncomputable def pathDists : List Point → List ℝ
  | p :: q :: rest => segDist p q :: pathDists (q :: rest)
  | _ => []

/-- Running totals of a distance list starting from `acc`: the values
pushed onto `lengths` by the loop of `computeArcLengths`. -/
noncomputable def cumFrom (acc : ℝ) : List ℝ → List ℝ
  | [] => []
  | d :: ds => (acc + d) :: cumFrom (acc + d) ds

/-- `computeArcLengths(splinePath)`: cumulative Euclidean distance at
each sample, normalized by the final total; a path with fewer than 2
samples returns `[0]`.  The loop's `lengths` array is `0 :: cumFrom 0 ds`
and its final `total` is `ds.sum`.  (When the total is `0`, JavaScript
produces `NaN` entries which every consumer collapses to `0` via `|| 0`;
Mathlib's `x / 0 = 0` models that collapsed value directly.) -/
noncomputable def computeArcLengths (splinePath : List Point) : List ℝ :=
  if splinePath.length < 2 then [0]
  else
    let ds := pathDists splinePath
    let total := ds.sum
    (0 :: cumFrom 0 ds).map (· / total)

/-- `stationToProgress(stationIndex, totalStations, arcLengths,
segmentsPerStation)`: indexes the arc-length table at
`stationIndex * segmentsPerStation`, clamped to the table bounds; the
source's trailing `|| 0` maps an out-of-range (`undefined`) or falsy
lookup to `0`, which `getD … 0` models. -/
noncomputable def stationToProgress (stationIndex totalStations : ℕ)
    (arcLengths : List ℝ) (segmentsPerStation : ℕ) : ℝ :=
  if totalStations ≤ 1 then 0
  else
    let splineIdx := stationIndex * segmentsPerStation
    let clamped := min splineIdx (arcLengths.length - 1)
    arcLengths.getD clamped 0

example : generateSplinePath [⟨0, 0⟩, ⟨10, 0⟩] 2 = [⟨0, 0⟩, ⟨5, 0⟩, ⟨10, 0⟩] := by
  simp [generateSplinePath, linearPath, List.range_succ]
  norm_num

example :
    getPositionAtProgress (generateSplinePath [⟨0, 0⟩, ⟨10, 0⟩] 2) 1 = ⟨10, 0⟩ := by
  simp [generateSplinePath, linearPath, List.range_succ, getPositionAtProgress]

/-- One `{x, y, name}` waypoint entry of the `station_coordinates`
mapping. -/
structure CoordEntry where
  x : ℚ
  y : ℚ
  name : String
deriving DecidableEq, Repr

/-- A parsed `station_coordinates` object: optional `start_finish` and
`roxzone` markers plus the numbered `station_1 … station_8` slots
(`station i` is the value at key `station_i`; `none` models a missing
key, whose lookup is `undefined` and therefore falsy). -/
structure CoordMap where
  start_finish : Option CoordEntry
  station : ℕ → Option CoordEntry
  roxzone : Option CoordEntry

/-- The `coords` argument of `buildStationPoints`: either an
already-parsed object or a missing (`null`/`undefined`) value.  (A JSON
string input goes through `JSON.parse` first; a *valid* one reduces to
the `obj` case, an invalid one throws inside `JSON.parse` itself.) -/
inductive CoordInput
  | obj (m : CoordMap)
  | nullish

/-- `list.splice(mid, 0, x)`: insert `x` at position `mid`. -/
def insertAt (mid : ℕ) (x : α) (l : List α) : List α :=
  l.take mid ++ x :: l.drop mid

/-- `buildStationPoints(coords, includeSpecial)`.  Property access on a
`null`/`undefined` mapping throws a `TypeError` in JavaScript, which the
`Except` error models; on an object it never throws: `start_finish` is
prepended when requested, `station_1 … station_8` follow in numeric
order (missing slots skipped), and `roxzone` is spliced in at
`floor(points.length / 2)` when requested. -/
def buildStationPoints (coords : CoordInput) (includeSpecial : Bool) :
    Except String (List StationPoint) :=
  match coords with
  | .nullish => .error "TypeError: cannot read properties of null or undefined"
  | .obj parsed =>
    let pts0 : List StationPoint :=
      match includeSpecial, parsed.start_finish with
      | true, some sf => [⟨sf.x, sf.y, "start_finish", "Start/Finish", 0⟩]
      | _, _ => []
    let pts1 : List StationPoint := pts0 ++
      (List.range 8).filterMap fun j =>
        (parsed.station (j + 1)).map fun s =>
          ⟨s.x, s.y, "station_" ++ toString (j + 1), s.name, (j : ℤ) + 1⟩
    let pts2 : List StationPoint :=
      match includeSpecial, parsed.roxzone with
      | true, some rz =>
        insertAt (pts1.length / 2) ⟨rz.x, rz.y, "roxzone", "ROXZONE", -1⟩ pts1
      | _, _ => pts1
    .ok pts2

/-- A `{stationNum, timeMs, name}` split record. -/
structure Split where
  stationNum : ℤ
  timeMs : ℚ
  name : String
deriving DecidableEq, Repr

/-- The `activeSplit` popup `{text, opacity, x, y}`. -/
structure SplitPopup where
  text : String
  opacity : ℚ
  x : ℚ
  y : ℚ
deriving DecidableEq, Repr

/-- A trail particle `{x, y, life, size, vx, vy}`. -/
structure Particle where
  x : ℚ
  y : ℚ
  life : ℚ
  size : ℚ
  vx : ℚ
  vy : ℚ
deriving DecidableEq, Repr

/-- The mutable state of a `CourseTracker` instance (canvas, map image
and resize bookkeeping are rendering-only and omitted).  The derived
fields (`stationPoints`, `splinePath`, `stationProgresses`, the two
cumulative timelines) are established by the constructor and never
mutated afterwards; `totalTimeMs`/`ghostTotalMs` are the sums of the
respective split times. -/
structure Tracker where
  stationPoints : List StationPoint
  splinePath : List Point
  stationProgresses : List ℚ
  splits : List Split
  totalTimeMs : ℚ
  ghostTotalMs : ℚ
  showGhost : Bool
  isPlaying : Bool
  progress : ℚ
  elapsedMs : ℚ
  speed : ℚ
  lastTimestamp : Option ℚ
  lastStationIndex : ℤ
  particles : List Particle
  ghostParticles : List Particle
  activeSplit : Option SplitPopup
deriving DecidableEq

/-- `padStart(2, '0')` on a decimal rendering. -/
def padTwo (s : String) : String :=
  if s.length < 2 then "0" ++ s else s

/-- `_formatTime(ms)`: `mm:ss` from milliseconds (`Math.floor` is `⌊·⌋`,
JavaScript `/ 60 | floor` is flooring division and `% 60` is the
truncating remainder). -/
def formatTime (ms : ℚ) : String :=
  let totalSec : ℤ := ⌊ms / 1000⌋
  let m : ℤ := Int.fdiv totalSec 60
  let s : ℤ := Int.tmod totalSec 60
  padTwo (toString m) ++ ":" ++ padTwo (toString s)

/-- The result of one `_checkStations` pass: the final
`lastStationIndex`, the final `activeSplit`, and the indices of the
stations whose crossing events fired, in firing order (the callback
receives `stationPoints[i].num` and `splits[i]` for each such `i`). -/
structure CheckResult where
  last : ℤ
  activeSplit : Option SplitPopup
  fired : List ℕ
deriving DecidableEq

/-- The loop of `_checkStations`, iterating over
`stationProgresses[i …]` with `i` the current index: a station fires
when `progress >= stationProgresses[i] && i > lastStationIndex`, and
firing sets `lastStationIndex = i` and (when a split exists at `i`)
replaces the popup. -/
def checkAux (s : Tracker) : List ℚ → ℕ → ℤ → Option SplitPopup → CheckResult
  | [], _, last, act => ⟨last, act, []⟩
  | spi :: rest, i, last, act =>
    if spi ≤ s.progress ∧ last < (i : ℤ) then
      let station := s.stationPoints.getD i default
      let splitTime := s.splits.get? i
      let act2 :=
        match splitTime with
        | some st =>
          let pos := getPositionAtProgress s.splinePath spi
          some ⟨station.name ++ ": " ++ formatTime st.timeMs, 1, pos.x, pos.y⟩
        | none => act
      let r := checkAux s rest (i + 1) (i : ℤ) act2
      ⟨r.last, r.activeSplit, i :: r.fired⟩
    else
      checkAux s rest (i + 1) last act

/-- `_checkStations()` on the current state. -/
def checkStations (s : Tracker) : CheckResult :=
  checkAux s s.stationProgresses 0 s.lastStationIndex s.activeSplit

/-- One particle's per-tick update: `life -= dt / window`,
`x += vx`, `y += vy`. -/
def decayMove (dt window : ℚ) (p : Particle) : Particle :=
  { p with life := p.life - dt / window, x := p.x + p.vx, y := p.y + p.vy }

/-- The update-and-cull pass over one pool: every particle decays and
moves, then those with `life <= 0` are spliced out. -/
def cullPass (dt window : ℚ) (l : List Particle) : List Particle :=
  (l.map (decayMove dt window)).filter fun p => decide (0 < p.life)

/-- `while (pool.length > cap) pool.shift()`: repeatedly drop the
oldest (front) element while over capacity. -/
def capPool (cap : ℕ) : List Particle → List Particle
  | [] => []
  | x :: xs => if cap < (x :: xs).length then capPool cap xs else x :: xs

/-- The fresh athlete particle pushed each tick: spawned at the current
primary position with `life = 1`, randomized size `3 + rand*2` and
velocity jitter `(rand - 0.5) * 0.3` (rand calls 0-2). -/
def primSpawn (rand : ℕ → ℚ) (s : Tracker) : Particle :=
  let pos := getPositionAtProgress s.splinePath s.progress
  ⟨pos.x, pos.y, 1, 3 + rand 0 * 2, (rand 1 - 1/2) * (3/10), (rand 2 - 1/2) * (3/10)⟩

/-- The fresh ghost particle: spawned at the ghost position
`min(1, elapsedMs / ghostTotalMs)` with `life = 1`, size `2 + rand*1.5`
and jitter `(rand - 0.5) * 0.2` (rand calls 3-5). -/
def ghostSpawn (rand : ℕ → ℚ) (s : Tracker) : Particle :=
  let ghostProgress := min 1 (s.elapsedMs / s.ghostTotalMs)
  let gPos := getPositionAtProgress s.splinePath ghostProgress
  ⟨gPos.x, gPos.y, 1, 2 + rand 3 * (3/2), (rand 4 - 1/2) * (1/5), (rand 5 - 1/2) * (1/5)⟩

/-- `_updateParticles(dt)`: push a fresh athlete particle at the current
position, decay/move/cull the primary pool (window 800), cap it at 30;
when the ghost is shown and has a timeline, do the same for the ghost
pool (window 600, cap 20) — otherwise the ghost pool is untouched. -/
def updateParticles (rand : ℕ → ℚ) (dt : ℚ) (s : Tracker) : Tracker :=
  let newP := primSpawn rand s
  let prim := capPool 30 (cullPass dt 800 (s.particles ++ [newP]))
  if s.showGhost ∧ 0 < s.ghostTotalMs then
    let newG := ghostSpawn rand s
    let gh := capPool 20 (cullPass dt 600 (s.ghostParticles ++ [newG]))
    { s with particles := prim, ghostParticles := gh }
  else
    { s with particles := prim }

/-- The per-tick observable outputs: indices of station-crossing events
fired during the tick (in firing order) and whether the completion
callback fired. -/
structure TickEvents where
  fired : List ℕ
  completed : Bool
deriving DecidableEq

/-- `_tick()` with `performance.now()` injected as `now`.  A paused
tracker returns unchanged.  Otherwise: `dt = now - (lastTimestamp ||
now)` (a `null` — or `0`-valued, hence falsy — timestamp yields `dt =
0`), `elapsedMs += dt * speed`, progress is recomputed only when
`totalTimeMs > 0`, stations are checked, particles updated, the split
popup fades by `dt / 1500`, and reaching `progress >= 1` stops playback
and fires the completion callback.  `tickPrev` is the
`this.lastTimestamp || now` fallback (both `null` and a `0`-valued
timestamp are falsy in JavaScript). -/
def tickPrev (now : ℚ) : Option ℚ → ℚ
  | none => now
  | some t => if t = 0 then now else t

def tick (rand : ℕ → ℚ) (now : ℚ) (s : Tracker) : Tracker × TickEvents :=
  if ¬ s.isPlaying then (s, ⟨[], false⟩)
  else
    let prev : ℚ := tickPrev now s.lastTimestamp
    let dt := now - prev
    let elapsed2 := s.elapsedMs + dt * s.speed
    let progress2 := if 0 < s.totalTimeMs then min 1 (elapsed2 / s.totalTimeMs)
      else s.progress
    let s2 := { s with lastTimestamp := some now, elapsedMs := elapsed2,
                       progress := progress2 }
    let cr := checkStations s2
    let s3 := { s2 with lastStationIndex := cr.last, activeSplit := cr.activeSplit }
    let s4 := updateParticles rand dt s3
    let s5 := { s4 with activeSplit :=
      match s4.activeSplit with
      | some a =>
        if a.opacity - dt / 1500 ≤ 0 then none
        else some { a with opacity := a.opacity - dt / 1500 }
      | none => none }
    if 1 ≤ s5.progress then ({ s5 with isPlaying := false }, ⟨cr.fired, true⟩)
    else (s5, ⟨cr.fired, false⟩)

/-- A sequence of ticks, each with its own `now` timestamp and random
source, collecting every tick's events. -/
def runTicks : Tracker → List (ℚ × (ℕ → ℚ)) → Tracker × List TickEvents
  | s, [] => (s, [])
  | s, (now, r) :: rest =>
    let t := tick r now s
    let w := runTicks t.1 rest
    (w.1, t.2 :: w.2)

/-- `pause()` (the animation-frame handle is rendering bookkeeping and
not modelled). -/
def pause (s : Tracker) : Tracker :=
  { s with isPlaying := false }

/-- `restart()`: pause, then reset time, progress, particle pools, the
split popup and `lastStationIndex`. -/
def restart (s : Tracker) : Tracker :=
  { pause s with progress := 0, elapsedMs := 0, particles := [],
                 ghostParticles := [], activeSplit := none, lastStationIndex := -1 }

/-- `seekTo(progress)`: clamp to `[0,1]`, derive `elapsedMs` from the
clamped value, and clear both particle pools; nothing else changes. -/
def seekTo (progress : ℚ) (s : Tracker) : Tracker :=
  let clamped := max 0 (min 1 progress)
  { s with progress := clamped, elapsedMs := clamped * s.totalTimeMs,
           particles := [], ghostParticles := [] }

/-- `play()`: a no-op while already playing; otherwise an implicit
restart when at/past completion, then start playing from a fresh time
base and run the first tick (both the time base and the first tick's
`performance.now()` are the injected `now`). -/
def play (rand : ℕ → ℚ) (now : ℚ) (s : Tracker) : Tracker × TickEvents :=
  if s.isPlaying then (s, ⟨[], false⟩)
  else
    let s1 := if 1 ≤ s.progress then restart s else s
    let s2 := { s1 with isPlaying := true, lastTimestamp := some now }
    tick rand now s2

/-- The sign of the displayed gap label: `+Ns behind`, `Ns ahead!` or
`Even with …`. -/
inductive GapSign
  | behind
  | ahead
  | even
deriving DecidableEq, Repr

/-- `_drawGapTime`'s data content: `none` when the guard
`ghostTotalMs <= 0 || totalTimeMs <= 0` bails out, otherwise the gap
`elapsedMs - progress * ghostTotalMs` in milliseconds together with the
sign of the displayed whole-second value `Math.round(gapMs / 1000)`
(Mathlib's `round` is `⌊· + 1/2⌋`, exactly `Math.round`'s
half-toward-positive-infinity rule). -/
def drawGapTime (s : Tracker) : Option (ℚ × GapSign) :=
  if s.ghostTotalMs ≤ 0 ∨ s.totalTimeMs ≤ 0 then none
  else
    let ghostElapsed := s.progress * s.ghostTotalMs
    let gapMs := s.elapsedMs - ghostElapsed
    let gapSec : ℤ := round (gapMs / 1000)
    some (gapMs, if 0 < gapSec then GapSign.behind
      else if gapSec < 0 then GapSign.ahead else GapSign.even)

/-! ## Helper lemmas -/

@[simp] theorem Point.mk_xy (p : Point) : Point.mk p.x p.y = p := rfl

theorem updateParticles_eq (rand : ℕ → ℚ) (dt : ℚ) (s : Tracker) :
    updateParticles rand dt s =
      if s.showGhost ∧ 0 < s.ghostTotalMs then
        { s with
          particles := capPool 30 (cullPass dt 800 (s.particles ++ [primSpawn rand s])),
          ghostParticles :=
            capPool 20 (cullPass dt 600 (s.ghostParticles ++ [ghostSpawn rand s])) }
      else
        { s with
          particles := capPool 30 (cullPass dt 800 (s.particles ++ [primSpawn rand s])) } := by
  unfold updateParticles
  split <;> rfl

@[simp] theorem updateParticles_elapsedMs (rand : ℕ → ℚ) (dt : ℚ) (s : Tracker) :
    (updateParticles rand dt s).elapsedMs = s.elapsedMs := by
  rw [updateParticles_eq]; split <;> rfl

@[simp] theorem updateParticles_progress (rand : ℕ → ℚ) (dt : ℚ) (s : Tracker) :
    (updateParticles rand dt s).progress = s.progress := by
  rw [updateParticles_eq]; split <;> rfl

@[simp] theorem updateParticles_lastStationIndex (rand : ℕ → ℚ) (dt : ℚ) (s : Tracker) :
    (updateParticles rand dt s).lastStationIndex = s.lastStationIndex := by
  rw [updateParticles_eq]; split <;> rfl

@[simp] theorem updateParticles_totalTimeMs (rand : ℕ → ℚ) (dt : ℚ) (s : Tracker) :
    (updateParticles rand dt s).totalTimeMs = s.totalTimeMs := by
  rw [updateParticles_eq]; split <;> rfl

@[simp] theorem updateParticles_ghostTotalMs (rand : ℕ → ℚ) (dt : ℚ) (s : Tracker) :
    (updateParticles rand dt s).ghostTotalMs = s.ghostTotalMs := by
  rw [updateParticles_eq]; split <;> rfl

@[simp] theorem updateParticles_isPlaying (rand : ℕ → ℚ) (dt : ℚ) (s : Tracker) :
    (updateParticles rand dt s).isPlaying = s.isPlaying := by
  rw [updateParticles_eq]; split <;> rfl

@[simp] theorem updateParticles_speed (rand : ℕ → ℚ) (dt : ℚ) (s : Tracker) :
    (updateParticles rand dt s).speed = s.speed := by
  rw [updateParticles_eq]; split <;> rfl

@[simp] theorem updateParticles_activeSplit (rand : ℕ → ℚ) (dt : ℚ) (s : Tracker) :
    (updateParticles rand dt s).activeSplit = s.activeSplit := by
  rw [updateParticles_eq]; split <;> rfl

@[simp] theorem updateParticles_stationProgresses (rand : ℕ → ℚ) (dt : ℚ) (s : Tracker) :
    (updateParticles rand dt s).stationProgresses = s.stationProgresses := by
  rw [updateParticles_eq]; split <;> rfl

@[simp] theorem tick_totalTimeMs (rand : ℕ → ℚ) (now : ℚ) (s : Tracker) :
    (tick rand now s).1.totalTimeMs = s.totalTimeMs := by
  unfold tick
  split
  · rfl
  · rw [apply_ite (fun p : Tracker × TickEvents => p.1.totalTimeMs)]
    simp

@[simp] theorem tick_ghostTotalMs (rand : ℕ → ℚ) (now : ℚ) (s : Tracker) :
    (tick rand now s).1.ghostTotalMs = s.ghostTotalMs := by
  unfold tick
  split
  · rfl
  · rw [apply_ite (fun p : Tracker × TickEvents => p.1.ghostTotalMs)]
    simp

@[simp] theorem tick_stationProgresses (rand : ℕ → ℚ) (now : ℚ) (s : Tracker) :
    (tick rand now s).1.stationProgresses = s.stationProgresses := by
  unfold tick
  split
  · rfl
  · rw [apply_ite (fun p : Tracker × TickEvents => p.1.stationProgresses)]
    simp

/-! ## C4 — seekTo -/

/-- **C4.** After `seekTo(p)` the progress equals `p` clamped to `[0,1]`,
`elapsedMs` equals the clamped progress times `totalTimeMs`, both
particle pools are empty, and `lastStationIndex`, `isPlaying`, `speed`
and both timeline totals are unchanged. -/
theorem seekTo_spec (s : Tracker) (p : ℚ) :
    (seekTo p s).progress = max 0 (min 1 p) ∧
    (seekTo p s).elapsedMs = max 0 (min 1 p) * s.totalTimeMs ∧
    (seekTo p s).particles = [] ∧
    (seekTo p s).ghostParticles = [] ∧
    (seekTo p s).lastStationIndex = s.lastStationIndex ∧
    (seekTo p s).isPlaying = s.isPlaying ∧
    (seekTo p s).speed = s.speed ∧
    (seekTo p s).totalTimeMs = s.totalTimeMs ∧
    (seekTo p s).ghostTotalMs = s.ghostTotalMs := by
  refine ⟨rfl, rfl, rfl, rfl, rfl, rfl, rfl, rfl, rfl⟩

/-! ## C10 — play while playing is a no-op -/

/-- **C10.** Calling `play()` while already playing returns immediately:
the whole state (time base included) is unchanged and no events fire. -/
theorem play_noop_spec (rand : ℕ → ℚ) (now : ℚ) (s : Tracker)
    (h : s.isPlaying = true) :
    play rand now s = (s, ⟨[], false⟩) := by
  simp [play, h]

/-- The initial state a `CourseTracker` constructed with empty options
starts from (used to instantiate hypotheses on concrete states). -/
def baseTracker : Tracker where
  stationPoints := []
  splinePath := []
  stationProgresses := []
  splits := []
  totalTimeMs := 0
  ghostTotalMs := 0
  showGhost := false
  isPlaying := false
  progress := 0
  elapsedMs := 0
  speed := 10
  lastTimestamp := none
  lastStationIndex := -1
  particles := []
  ghostParticles := []
  activeSplit := none

/-- **C10 witness.** A concrete playing state on which `play` is the
identity. -/
theorem play_noop_spec_witness :
    ({ baseTracker with isPlaying := true } : Tracker).isPlaying = true ∧
    play (fun _ => 0) 5 { baseTracker with isPlaying := true } =
      ({ baseTracker with isPlaying := true }, ⟨[], false⟩) :=
  ⟨rfl, play_noop_spec (fun _ => 0) 5 _ rfl⟩

/-! ## C1 — tick advance and the zero-total edge case -/

theorem tick_not_playing (rand : ℕ → ℚ) (now : ℚ) (s : Tracker)
    (h : s.isPlaying = false) :
    tick rand now s = (s, ⟨[], false⟩) := by
  simp [tick, h]

theorem tick_playing_fields (rand : ℕ → ℚ) (now t : ℚ) (s : Tracker)
    (hp : s.isPlaying = true) (ht : s.lastTimestamp = some t) (ht0 : t ≠ 0) :
    (tick rand now s).1.elapsedMs = s.elapsedMs + (now - t) * s.speed ∧
    (tick rand now s).1.progress =
      (if 0 < s.totalTimeMs
        then min 1 ((s.elapsedMs + (now - t) * s.speed) / s.totalTimeMs)
        else s.progress) := by
  unfold tick
  rw [ht, if_neg (by simp [hp])]
  rw [show tickPrev now (some t) = t by simp [tickPrev, ht0]]
  constructor
  · rw [apply_ite (fun p : Tracker × TickEvents => p.1.elapsedMs)]
    simp
  · rw [apply_ite (fun p : Tracker × TickEvents => p.1.progress)]
    simp

theorem tick_total_zero (rand : ℕ → ℚ) (now : ℚ) (s : Tracker)
    (h : s.totalTimeMs = 0) :
    (tick rand now s).1.progress = s.progress ∧
    (tick rand now s).1.totalTimeMs = 0 ∧
    ((tick rand now s).2.completed = true → 1 ≤ s.progress) := by
  by_cases hp : s.isPlaying
  · unfold tick
    rw [if_neg (by simp [hp])]
    simp only [h, lt_self_iff_false, if_false]
    refine ⟨?_, ?_, ?_⟩
    · rw [apply_ite (fun p : Tracker × TickEvents => p.1.progress)]
      simp
    · rw [apply_ite (fun p : Tracker × TickEvents => p.1.totalTimeMs)]
      simp [h]
    · rw [apply_ite (fun p : Tracker × TickEvents => p.2.completed)]
      intro hc
      by_cases hle : 1 ≤ s.progress
      · exact hle
      · exfalso
        rw [if_neg ?_] at hc
        · exact Bool.false_ne_true hc
        · simpa using hle
  · rw [tick_not_playing rand now s (by simpa using hp)]
    simp [h]

theorem runTicks_total_zero (s : Tracker) (steps : List (ℚ × (ℕ → ℚ)))
    (h : s.totalTimeMs = 0) (h0 : s.progress = 0) :
    (runTicks s steps).1.progress = 0 ∧
    ∀ ev ∈ (runTicks s steps).2, ev.completed = false := by
  induction steps generalizing s with
  | nil => exact ⟨by simpa [runTicks] using h0, by simp [runTicks]⟩
  | cons step rest ih =>
    obtain ⟨now, r⟩ := step
    obtain ⟨hprog, htot, hcomp⟩ := tick_total_zero r now s h
    have hnext := ih (tick r now s).1 htot (by rw [hprog, h0])
    refine ⟨by simpa [runTicks] using hnext.1, ?_⟩
    intro ev hev
    simp only [runTicks, List.mem_cons] at hev
    rcases hev with rfl | hev
    · by_contra hc
      have := hcomp (by simpa using hc)
      rw [h0] at this
      norm_num at this
    · exact hnext.2 ev hev

/-- **C1.** While playing, a tick advances `elapsedMs` by the real time
delta times the speed multiplier and recomputes
`progress = min(1, elapsedMs / totalTimeMs)` when `totalTimeMs > 0`;
when `totalTimeMs = 0` a tick never changes `progress`, so from the
initial `progress = 0` any sequence of ticks leaves it pinned at `0`
and never fires the completion callback, while an explicit `seekTo(1)`
does set `progress = 1`. -/
theorem tick_advance_spec (rand : ℕ → ℚ) (now t : ℚ) (s : Tracker)
    (hp : s.isPlaying = true) (ht : s.lastTimestamp = some t) (ht0 : t ≠ 0) :
    ((tick rand now s).1.elapsedMs = s.elapsedMs + (now - t) * s.speed ∧
     (0 < s.totalTimeMs →
       (tick rand now s).1.progress =
         min 1 ((s.elapsedMs + (now - t) * s.speed) / s.totalTimeMs)) ∧
     (s.totalTimeMs = 0 → (tick rand now s).1.progress = s.progress)) ∧
    (∀ u : Tracker, u.totalTimeMs = 0 → u.progress = 0 →
      ∀ steps : List (ℚ × (ℕ → ℚ)),
        (runTicks u steps).1.progress = 0 ∧
        ∀ ev ∈ (runTicks u steps).2, ev.completed = false) ∧
    (∀ u : Tracker, (seekTo 1 u).progress = 1) := by
  obtain ⟨he, hpr⟩ := tick_playing_fields rand now t s hp ht ht0
  refine ⟨⟨he, ?_, ?_⟩, ?_, ?_⟩
  · intro hpos
    rw [hpr, if_pos hpos]
  · intro hz
    rw [hpr, if_neg (by rw [hz]; norm_num)]
  · intro u hu h0 steps
    exact runTicks_total_zero u steps hu h0
  · intro u
    simp [seekTo]

/-- A playing tracker with a 3000 ms primary timeline, used to
instantiate the tick theorems on a concrete state. -/
def playingTracker : Tracker :=
  { baseTracker with isPlaying := true, lastTimestamp := some 1000,
                     totalTimeMs := 3000, speed := 1 }

/-- **C1 witness.** The tick theorem instantiated on a concrete playing
state (tick at `now = 2500` against time base `1000`). -/
theorem tick_advance_spec_witness :
    playingTracker.isPlaying = true ∧
    playingTracker.lastTimestamp = some 1000 ∧
    (1000 : ℚ) ≠ 0 ∧
    (((tick (fun _ => 0) 2500 playingTracker).1.elapsedMs =
        playingTracker.elapsedMs + (2500 - 1000) * playingTracker.speed ∧
      (0 < playingTracker.totalTimeMs →
        (tick (fun _ => 0) 2500 playingTracker).1.progress =
          min 1 ((playingTracker.elapsedMs + (2500 - 1000) * playingTracker.speed) /
            playingTracker.totalTimeMs)) ∧
      (playingTracker.totalTimeMs = 0 →
        (tick (fun _ => 0) 2500 playingTracker).1.progress = playingTracker.progress)) ∧
     (∀ u : Tracker, u.totalTimeMs = 0 → u.progress = 0 →
       ∀ steps : List (ℚ × (ℕ → ℚ)),
         (runTicks u steps).1.progress = 0 ∧
         ∀ ev ∈ (runTicks u steps).2, ev.completed = false) ∧
     (∀ u : Tracker, (seekTo 1 u).progress = 1)) :=
  ⟨rfl, rfl, by norm_num,
    tick_advance_spec (fun _ => 0) 2500 1000 playingTracker rfl rfl (by norm_num)⟩

/-! ## C8 — gap time -/

/-- The worked gap scenario: primary total 3000 ms, ghost total 4000 ms,
speed 1, one tick covering 2000 ms of real time from the start. -/
def gapScenario : Tracker :=
  { baseTracker with totalTimeMs := 3000, ghostTotalMs := 4000,
                     isPlaying := true, speed := 1, lastTimestamp := some 1000 }

/-- **C8.** With an active ghost (`ghostTotalMs > 0`) and a
non-degenerate primary timeline, the gap value is
`elapsedMs - progress * ghostTotalMs`, displayed as behind / ahead /
even according to the sign of its rounded whole-second value; in the
worked scenario (ghost 4000 ms, primary 3000 ms, elapsed 2000 ms) the
gap is `-2000/3 ms`, negative, displayed as ahead of the ghost. -/
theorem gapTime_spec (s : Tracker) (hg : 0 < s.ghostTotalMs)
    (hp : 0 < s.totalTimeMs) :
    ((drawGapTime s).map Prod.fst =
      some (s.elapsedMs - s.progress * s.ghostTotalMs)) ∧
    (0 < round ((s.elapsedMs - s.progress * s.ghostTotalMs) / 1000) →
      (drawGapTime s).map Prod.snd = some GapSign.behind) ∧
    (round ((s.elapsedMs - s.progress * s.ghostTotalMs) / 1000) < 0 →
      (drawGapTime s).map Prod.snd = some GapSign.ahead) ∧
    (round ((s.elapsedMs - s.progress * s.ghostTotalMs) / 1000) = (0 : ℤ) →
      (drawGapTime s).map Prod.snd = some GapSign.even) ∧
    (drawGapTime (tick (fun _ => 0) 3000 gapScenario).1 =
        some (-2000/3, GapSign.ahead) ∧
      (-2000/3 : ℚ) < 0) := by
  have hguard : ¬ (s.ghostTotalMs ≤ 0 ∨ s.totalTimeMs ≤ 0) := by
    push_neg
    exact ⟨hg, hp⟩
  refine ⟨?_, ?_, ?_, ?_, ?_, by norm_num⟩
  · simp [drawGapTime, hguard]
  · intro hpos
    simp only [drawGapTime, hguard, if_false, Option.map_some]
    simp [if_pos hpos]
  · intro hneg
    simp only [drawGapTime, hguard, if_false, Option.map_some]
    simp [if_neg (by omega : ¬ (0:ℤ) < round ((s.elapsedMs - s.progress * s.ghostTotalMs) / 1000)), if_pos hneg]
  · intro hzero
    simp only [drawGapTime, hguard, if_false, Option.map_some]
    rw [hzero]
    norm_num
  · obtain ⟨he, hpr⟩ := tick_playing_fields (fun _ => 0) 3000 1000 gapScenario
      rfl rfl (by norm_num)
    have he2 : (tick (fun _ => 0) 3000 gapScenario).1.elapsedMs = 2000 := by
      rw [he]
      norm_num [gapScenario, baseTracker]
    have hp2 : (tick (fun _ => 0) 3000 gapScenario).1.progress = 2/3 := by
      rw [hpr]
      rw [if_pos (show (0:ℚ) < gapScenario.totalTimeMs by
        norm_num [gapScenario, baseTracker])]
      rw [show gapScenario.elapsedMs + (3000 - 1000) * gapScenario.speed = (2000 : ℚ) by
        norm_num [gapScenario, baseTracker]]
      rw [show gapScenario.totalTimeMs = (3000 : ℚ) from rfl]
      rw [min_eq_right (by norm_num)]
      norm_num
    have ht2 : (tick (fun _ => 0) 3000 gapScenario).1.totalTimeMs = 3000 := by
      rw [tick_totalTimeMs]
      rfl
    have hg2 : (tick (fun _ => 0) 3000 gapScenario).1.ghostTotalMs = 4000 := by
      rw [tick_ghostTotalMs]
      rfl
    have hround : round (((2000 : ℚ) - 2/3 * 4000) / 1000) = (-1 : ℤ) := by
      rw [show ((2000 : ℚ) - 2/3 * 4000) / 1000 = -2/3 by norm_num]
      rw [round_eq]
      rw [show (-2/3 : ℚ) + 1/2 = -1/6 by norm_num]
      rw [Int.floor_eq_iff]
      constructor <;> norm_num
    have hgap : drawGapTime (tick (fun _ => 0) 3000 gapScenario).1 =
        some ((2000 : ℚ) - 2/3 * 4000,
          if 0 < round (((2000 : ℚ) - 2/3 * 4000) / 1000) then GapSign.behind
          else if round (((2000 : ℚ) - 2/3 * 4000) / 1000) < 0 then GapSign.ahead
          else GapSign.even) := by
      simp only [drawGapTime, he2, hp2, ht2, hg2]
      rw [if_neg (by norm_num)]
    rw [hgap, hround]
    norm_num

/-- **C8 witness.** The gap theorem instantiated on the concrete
scenario state. -/
theorem gapTime_spec_witness :
    (0 : ℚ) < gapScenario.ghostTotalMs ∧ (0 : ℚ) < gapScenario.totalTimeMs ∧
    (((drawGapTime gapScenario).map Prod.fst =
      some (gapScenario.elapsedMs - gapScenario.progress * gapScenario.ghostTotalMs)) ∧
    (0 < round ((gapScenario.elapsedMs -
        gapScenario.progress * gapScenario.ghostTotalMs) / 1000) →
      (drawGapTime gapScenario).map Prod.snd = some GapSign.behind) ∧
    (round ((gapScenario.elapsedMs -
        gapScenario.progress * gapScenario.ghostTotalMs) / 1000) < 0 →
      (drawGapTime gapScenario).map Prod.snd = some GapSign.ahead) ∧
    (round ((gapScenario.elapsedMs -
        gapScenario.progress * gapScenario.ghostTotalMs) / 1000) = (0 : ℤ) →
      (drawGapTime gapScenario).map Prod.snd = some GapSign.even) ∧
    (drawGapTime (tick (fun _ => 0) 3000 gapScenario).1 =
        some (-2000/3, GapSign.ahead) ∧
      (-2000/3 : ℚ) < 0)) :=
  ⟨by norm_num [gapScenario, baseTracker], by norm_num [gapScenario, baseTracker],
    gapTime_spec gapScenario (by norm_num [gapScenario, baseTracker])
      (by norm_num [gapScenario, baseTracker])⟩

/-! ## C5 — buildStationPoints on degenerate input -/

/-- **C5 counterexample.** With no mapping supplied at all
(`null`/`undefined` coordinates) `buildStationPoints` throws a
`TypeError` instead of returning an empty sequence, so "never throws;
empty or malformed input yields the empty sequence" fails. -/
theorem buildStationPoints_nullish_cex :
    buildStationPoints CoordInput.nullish false =
      Except.error "TypeError: cannot read properties of null or undefined" := rfl

/-- The empty waypoint mapping `{}`. -/
def emptyCoordMap : CoordMap := ⟨none, fun _ => none, none⟩

/-- **C5 (amended).** For every already-parsed object mapping —
including the empty object, with missing entries simply omitted —
`buildStationPoints` never throws and returns an ordered station
sequence, and the empty object yields the empty sequence; but a missing
(`null`/`undefined`) mapping, like a malformed JSON string inside
`JSON.parse`, makes the function throw instead of returning the empty
sequence. -/
theorem buildStationPoints_object_total (m : CoordMap) (b : Bool) :
    (∃ pts, buildStationPoints (CoordInput.obj m) b = Except.ok pts) ∧
    buildStationPoints (CoordInput.obj emptyCoordMap) b = Except.ok [] ∧
    (∀ pts, buildStationPoints CoordInput.nullish b ≠ Except.ok pts) := by
  refine ⟨⟨_, rfl⟩, ?_, ?_⟩
  · cases b <;> rfl
  · intro pts h
    simp [buildStationPoints] at h

/-! ## C2 — station-crossing detection -/

theorem checkAux_fired_mem (s : Tracker) (sp : List ℚ) (j : ℕ) :
    ∀ (i0 : ℕ) (last : ℤ) (act : Option SplitPopup),
      j ∈ (checkAux s sp i0 last act).fired ↔
        (i0 ≤ j ∧ j - i0 < sp.length ∧ sp.getD (j - i0) 0 ≤ s.progress ∧
         last < (j : ℤ)) := by
  induction sp with
  | nil =>
    intro i0 last act
    simp [checkAux]
  | cons spi rest ih =>
    intro i0 last act
    by_cases hc : spi ≤ s.progress ∧ last < (i0 : ℤ)
    · have hc2 : last < (i0 : ℤ) := hc.2
      simp only [checkAux, if_pos hc, List.mem_cons]
      constructor
      · rintro (rfl | hj)
        · refine ⟨le_refl _, by simp, ?_, hc.2⟩
          simpa using hc.1
        · obtain ⟨h1, h2, h3, h4⟩ := (ih (i0 + 1) (i0 : ℤ) _).mp hj
          refine ⟨by omega, by simp only [List.length_cons]; omega, ?_, by omega⟩
          obtain ⟨k, hk⟩ : ∃ k, j - i0 = k + 1 := ⟨j - i0 - 1, by omega⟩
          rw [hk, List.getD_cons_succ, show k = j - (i0 + 1) by omega]
          exact h3
      · rintro ⟨h1, h2, h3, h4⟩
        by_cases hji : j = i0
        · exact Or.inl hji
        · right
          refine (ih (i0 + 1) (i0 : ℤ) _).mpr
            ⟨by omega, by simp only [List.length_cons] at h2; omega, ?_, by omega⟩
          obtain ⟨k, hk⟩ : ∃ k, j - i0 = k + 1 := ⟨j - i0 - 1, by omega⟩
          rw [hk, List.getD_cons_succ] at h3
          rw [show j - (i0 + 1) = k by omega]
          exact h3
    · simp only [checkAux, if_neg hc]
      rw [ih (i0 + 1) last act]
      push_neg at hc
      constructor
      · rintro ⟨h1, h2, h3, h4⟩
        refine ⟨by omega, by simp only [List.length_cons]; omega, ?_, h4⟩
        obtain ⟨k, hk⟩ : ∃ k, j - i0 = k + 1 := ⟨j - i0 - 1, by omega⟩
        rw [hk, List.getD_cons_succ, show k = j - (i0 + 1) by omega]
        exact h3
      · rintro ⟨h1, h2, h3, h4⟩
        have hji : j ≠ i0 := by
          rintro rfl
          rw [Nat.sub_self, List.getD_cons_zero] at h3
          have := hc h3
          omega
        refine ⟨by omega, by simp only [List.length_cons] at h2; omega, ?_, h4⟩
        obtain ⟨k, hk⟩ : ∃ k, j - i0 = k + 1 := ⟨j - i0 - 1, by omega⟩
        rw [hk, List.getD_cons_succ] at h3
        rw [show j - (i0 + 1) = k by omega]
        exact h3

theorem checkAux_fired_chain (s : Tracker) (sp : List ℚ) :
    ∀ (i0 : ℕ) (last : ℤ) (act : Option SplitPopup),
      (∀ j ∈ (checkAux s sp i0 last act).fired, i0 ≤ j) ∧
      (checkAux s sp i0 last act).fired.Chain' (· < ·) := by
  induction sp with
  | nil =>
    intro i0 last act
    simp [checkAux]
  | cons spi rest ih =>
    intro i0 last act
    by_cases hc : spi ≤ s.progress ∧ last < (i0 : ℤ)
    · simp only [checkAux, if_pos hc]
      constructor
      · intro j hj
        rcases List.mem_cons.mp hj with rfl | hj2
        · exact le_refl j
        · have := (ih (i0 + 1) (i0 : ℤ) _).1 j hj2
          omega
      · rw [List.chain'_cons']
        refine ⟨?_, (ih (i0 + 1) (i0 : ℤ) _).2⟩
        intro y hy
        have := (ih (i0 + 1) (i0 : ℤ) _).1 y (List.mem_of_mem_head? hy)
        omega
    · simp only [checkAux, if_neg hc]
      refine ⟨?_, (ih (i0 + 1) last act).2⟩
      intro j hj
      have := (ih (i0 + 1) last act).1 j hj
      omega

theorem checkAux_last_bounds (s : Tracker) (sp : List ℚ) :
    ∀ (i0 : ℕ) (last : ℤ) (act : Option SplitPopup),
      last ≤ (checkAux s sp i0 last act).last ∧
      (∀ j ∈ (checkAux s sp i0 last act).fired,
        (j : ℤ) ≤ (checkAux s sp i0 last act).last) := by
  induction sp with
  | nil =>
    intro i0 last act
    simp [checkAux]
  | cons spi rest ih =>
    intro i0 last act
    by_cases hc : spi ≤ s.progress ∧ last < (i0 : ℤ)
    · have hc2 : last < (i0 : ℤ) := hc.2
      simp only [checkAux, if_pos hc]
      constructor
      · exact le_trans (le_of_lt hc2) (ih (i0 + 1) (i0 : ℤ) _).1
      · intro j hj
        rcases List.mem_cons.mp hj with rfl | hj2
        · exact (ih _ _ _).1
        · exact (ih _ _ _).2 j hj2
    · simp only [checkAux, if_neg hc]
      exact ih (i0 + 1) last act

theorem cons_getLast?_cases {α : Type} (a : α) (l : List α) (j : α)
    (h : (a :: l).getLast? = some j) : (l = [] ∧ j = a) ∨ l.getLast? = some j := by
  cases l with
  | nil =>
    simp only [List.getLast?_singleton, Option.some.injEq] at h
    exact Or.inl ⟨rfl, h.symm⟩
  | cons b m =>
    rw [List.getLast?_cons_cons] at h
    exact Or.inr h

theorem checkAux_last_eq (s : Tracker) (sp : List ℚ) :
    ∀ (i0 : ℕ) (last : ℤ) (act : Option SplitPopup),
      ((checkAux s sp i0 last act).fired = [] →
        (checkAux s sp i0 last act).last = last) ∧
      (∀ j : ℕ, (checkAux s sp i0 last act).fired.getLast? = some j →
        (checkAux s sp i0 last act).last = (j : ℤ)) := by
  induction sp with
  | nil =>
    intro i0 last act
    simp [checkAux]
  | cons spi rest ih =>
    intro i0 last act
    by_cases hc : spi ≤ s.progress ∧ last < (i0 : ℤ)
    · simp only [checkAux, if_pos hc]
      constructor
      · intro h
        exact absurd h (by simp)
      · intro j hj
        rcases cons_getLast?_cases _ _ _ hj with ⟨hF, rfl⟩ | hF
        · exact (ih _ _ _).1 hF
        · exact (ih _ _ _).2 j hF
    · simp only [checkAux, if_neg hc]
      exact ih (i0 + 1) last act

theorem tick_check (rand : ℕ → ℚ) (now : ℚ) (s : Tracker)
    (hp : s.isPlaying = true) :
    ∃ s2 : Tracker,
      (tick rand now s).2.fired = (checkStations s2).fired ∧
      (tick rand now s).1.lastStationIndex = (checkStations s2).last ∧
      s2.lastStationIndex = s.lastStationIndex ∧
      s2.stationProgresses = s.stationProgresses := by
  unfold tick
  rw [if_neg (by simp [hp])]
  refine ⟨{ s with
      progress := if 0 < s.totalTimeMs
        then min 1 ((s.elapsedMs + (now - tickPrev now s.lastTimestamp) * s.speed) /
          s.totalTimeMs)
        else s.progress,
      elapsedMs := s.elapsedMs + (now - tickPrev now s.lastTimestamp) * s.speed,
      lastTimestamp := some now }, ?_, ?_, rfl, rfl⟩
  · rw [apply_ite (fun p : Tracker × TickEvents => p.2.fired)]
    simp
  · rw [apply_ite (fun p : Tracker × TickEvents => p.1.lastStationIndex)]
    simp

theorem tick_fired_bounds (rand : ℕ → ℚ) (now : ℚ) (s : Tracker) :
    (∀ j ∈ (tick rand now s).2.fired,
      s.lastStationIndex < (j : ℤ) ∧
      (j : ℤ) ≤ (tick rand now s).1.lastStationIndex) ∧
    s.lastStationIndex ≤ (tick rand now s).1.lastStationIndex ∧
    (tick rand now s).2.fired.Chain' (· < ·) := by
  by_cases hp : s.isPlaying
  · obtain ⟨s2, hf, hl, hls, _⟩ := tick_check rand now s (by simpa using hp)
    rw [hf, hl]
    unfold checkStations
    rw [← hls]
    refine ⟨?_, (checkAux_last_bounds s2 _ _ _ _).1,
      (checkAux_fired_chain s2 _ _ _ _).2⟩
    intro j hj
    obtain ⟨-, -, -, h4⟩ := (checkAux_fired_mem s2 _ j _ _ _).mp hj
    exact ⟨h4, (checkAux_last_bounds s2 _ _ _ _).2 j hj⟩
  · rw [tick_not_playing rand now s (by simpa using hp)]
    simp

theorem runTicks_fired_asc (s : Tracker) (steps : List (ℚ × (ℕ → ℚ))) :
    (∀ j ∈ ((runTicks s steps).2.map TickEvents.fired).flatten,
      s.lastStationIndex < (j : ℤ) ∧
      (j : ℤ) ≤ (runTicks s steps).1.lastStationIndex) ∧
    s.lastStationIndex ≤ (runTicks s steps).1.lastStationIndex ∧
    ((runTicks s steps).2.map TickEvents.fired).flatten.Chain' (· < ·) := by
  induction steps generalizing s with
  | nil => simp [runTicks]
  | cons step rest ih =>
    obtain ⟨now, r⟩ := step
    obtain ⟨hb1, hb2, hb3⟩ := tick_fired_bounds r now s
    obtain ⟨hr1, hr2, hr3⟩ := ih (tick r now s).1
    simp only [runTicks, List.map_cons, List.flatten_cons]
    refine ⟨?_, le_trans hb2 hr2, ?_⟩
    · intro j hj
      rcases List.mem_append.mp hj with h | h
      · obtain ⟨ha, hb⟩ := hb1 j h
        exact ⟨ha, le_trans hb hr2⟩
      · obtain ⟨ha, hb⟩ := hr1 j h
        exact ⟨lt_of_le_of_lt hb2 ha, hb⟩
    · refine List.Chain'.append hb3 hr3 ?_
      intro x hx y hy
      obtain ⟨-, hxle⟩ := hb1 x (List.mem_of_mem_getLast? hx)
      obtain ⟨hygt, -⟩ := hr1 y (List.mem_of_mem_head? hy)
      omega

/-- **C2.** For stations with non-decreasing `stationProgresses`, one
`_checkStations` pass fires exactly the stations `i` with
`lastStationIndex < i` and `stationProgresses[i] <= progress` (so none
is skipped and each fires on the first tick where the condition holds),
fires them in strictly ascending index order, updates
`lastStationIndex` to the last fired index (unchanged when none fires),
and over any sequence of ticks of a play cycle the concatenated list of
fired indices is strictly ascending — each station fires at most
once. -/
theorem checkStations_crossing_spec (s : Tracker)
    (hsorted : s.stationProgresses.Chain' (· ≤ ·)) :
    (∀ i : ℕ, i ∈ (checkStations s).fired ↔
        (s.lastStationIndex < (i : ℤ) ∧ i < s.stationProgresses.length ∧
         s.stationProgresses.getD i 0 ≤ s.progress)) ∧
    (checkStations s).fired.Chain' (· < ·) ∧
    ((checkStations s).fired = [] →
      (checkStations s).last = s.lastStationIndex) ∧
    (∀ j : ℕ, (checkStations s).fired.getLast? = some j →
      (checkStations s).last = (j : ℤ)) ∧
    (∀ steps : List (ℚ × (ℕ → ℚ)),
      ((runTicks s steps).2.map TickEvents.fired).flatten.Chain' (· < ·)) := by
  refine ⟨?_, (checkAux_fired_chain s _ 0 _ _).2,
    (checkAux_last_eq s _ 0 _ _).1, (checkAux_last_eq s _ 0 _ _).2,
    fun steps => (runTicks_fired_asc s steps).2.2⟩
  intro i
  unfold checkStations
  rw [checkAux_fired_mem]
  constructor
  · rintro ⟨-, h2, h3, h4⟩
    exact ⟨h4, by omega, by simpa using h3⟩
  · rintro ⟨h1, h2, h3⟩
    exact ⟨Nat.zero_le _, by omega, by simpa using h3, h1⟩

/-- A concrete tracker with three stations at progresses 0, 1/2, 1 and
the marker at progress 3/4, used to instantiate the crossing
theorem. -/
def crossTracker : Tracker :=
  { baseTracker with stationProgresses := [0, 1/2, 1], progress := 3/4 }

/-- **C2 witness.** The crossing theorem instantiated on `crossTracker`
(whose progress table is non-decreasing). -/
theorem checkStations_crossing_spec_witness :
    crossTracker.stationProgresses.Chain' (· ≤ ·) ∧
    ((∀ i : ℕ, i ∈ (checkStations crossTracker).fired ↔
        (crossTracker.lastStationIndex < (i : ℤ) ∧
         i < crossTracker.stationProgresses.length ∧
         crossTracker.stationProgresses.getD i 0 ≤ crossTracker.progress)) ∧
    (checkStations crossTracker).fired.Chain' (· < ·) ∧
    ((checkStations crossTracker).fired = [] →
      (checkStations crossTracker).last = crossTracker.lastStationIndex) ∧
    (∀ j : ℕ, (checkStations crossTracker).fired.getLast? = some j →
      (checkStations crossTracker).last = (j : ℤ)) ∧
    (∀ steps : List (ℚ × (ℕ → ℚ)),
      ((runTicks crossTracker steps).2.map TickEvents.fired).flatten.Chain'
        (· < ·))) :=
  have hs : crossTracker.stationProgresses.Chain' (· ≤ ·) := by
    simp [crossTracker, baseTracker, List.chain'_cons]
    norm_num
  ⟨hs, checkStations_crossing_spec crossTracker hs⟩

/-! ## C6 / C7 — particle pools -/

theorem capPool_eq_drop (cap : ℕ) (l : List Particle) :
    capPool cap l = l.drop (l.length - cap) := by
  induction l with
  | nil => simp [capPool]
  | cons x xs ih =>
    by_cases h : cap < (x :: xs).length
    · rw [capPool, if_pos h, ih]
      have hlen : (x :: xs).length - cap = (xs.length - cap) + 1 := by
        simp only [List.length_cons] at h ⊢
        omega
      rw [hlen, List.drop_succ_cons]
    · rw [capPool, if_neg h]
      have hlen : (x :: xs).length - cap = 0 := by
        simp only [List.length_cons] at h ⊢
        omega
      rw [hlen, List.drop_zero]

theorem capPool_length_le (cap : ℕ) (l : List Particle) :
    (capPool cap l).length ≤ cap := by
  rw [capPool_eq_drop, List.length_drop]
  omega

theorem capPool_subset (cap : ℕ) (l : List Particle) :
    ∀ q ∈ capPool cap l, q ∈ l := by
  rw [capPool_eq_drop]
  exact fun q hq => (List.drop_sublist _ _).subset hq

theorem cullPass_mem (dt window : ℚ) (l : List Particle) (q : Particle) :
    q ∈ cullPass dt window l ↔
      (q ∈ l.map (decayMove dt window) ∧ 0 < q.life) := by
  simp [cullPass]

theorem updateParticles_particles_le (rand : ℕ → ℚ) (dt : ℚ) (s : Tracker) :
    (updateParticles rand dt s).particles.length ≤ 30 := by
  rw [updateParticles_eq]
  split <;> exact capPool_length_le _ _

theorem updateParticles_ghost_le (rand : ℕ → ℚ) (dt : ℚ) (s : Tracker)
    (h : s.ghostParticles.length ≤ 20) :
    (updateParticles rand dt s).ghostParticles.length ≤ 20 := by
  rw [updateParticles_eq]
  split
  · exact capPool_length_le _ _
  · exact h

theorem tick_pools_le (rand : ℕ → ℚ) (now : ℚ) (s : Tracker)
    (h1 : s.particles.length ≤ 30) (h2 : s.ghostParticles.length ≤ 20) :
    (tick rand now s).1.particles.length ≤ 30 ∧
    (tick rand now s).1.ghostParticles.length ≤ 20 := by
  by_cases hp : s.isPlaying
  · unfold tick
    rw [if_neg (by simp [hp])]
    constructor
    · rw [apply_ite (fun p : Tracker × TickEvents => p.1.particles)]
      rw [ite_self]
      exact updateParticles_particles_le _ _ _
    · rw [apply_ite (fun p : Tracker × TickEvents => p.1.ghostParticles)]
      rw [ite_self]
      exact updateParticles_ghost_le _ _ _ h2
  · rw [tick_not_playing rand now s (by simpa using hp)]
    exact ⟨h1, h2⟩

theorem runTicks_pools_le (s : Tracker) (steps : List (ℚ × (ℕ → ℚ)))
    (h1 : s.particles.length ≤ 30) (h2 : s.ghostParticles.length ≤ 20) :
    (runTicks s steps).1.particles.length ≤ 30 ∧
    (runTicks s steps).1.ghostParticles.length ≤ 20 := by
  induction steps generalizing s with
  | nil => exact ⟨h1, h2⟩
  | cons step rest ih =>
    obtain ⟨now, r⟩ := step
    obtain ⟨g1, g2⟩ := tick_pools_le r now s h1 h2
    simpa [runTicks] using ih (tick r now s).1 g1 g2

/-- **C6.** After every particle update the primary pool holds at most
30 particles and the ghost pool at most 20 — also across any sequence
of ticks with any deltas and speed — and the capping loop drops
exactly the over-capacity prefix, i.e. it evicts the oldest (front)
particles first, regardless of their remaining life. -/
theorem particlePools_bounded_spec (s : Tracker)
    (h1 : s.particles.length ≤ 30) (h2 : s.ghostParticles.length ≤ 20) :
    (∀ (rand : ℕ → ℚ) (dt : ℚ),
      (updateParticles rand dt s).particles.length ≤ 30 ∧
      (updateParticles rand dt s).ghostParticles.length ≤ 20) ∧
    (∀ steps : List (ℚ × (ℕ → ℚ)),
      (runTicks s steps).1.particles.length ≤ 30 ∧
      (runTicks s steps).1.ghostParticles.length ≤ 20) ∧
    (∀ (cap : ℕ) (l : List Particle),
      capPool cap l = l.drop (l.length - cap)) :=
  ⟨fun rand dt => ⟨updateParticles_particles_le rand dt s,
      updateParticles_ghost_le rand dt s h2⟩,
   fun steps => runTicks_pools_le s steps h1 h2,
   fun cap l => capPool_eq_drop cap l⟩

/-- **C6 witness.** The pool-bound theorem instantiated on the initial
(empty-pool) state. -/
theorem particlePools_bounded_spec_witness :
    baseTracker.particles.length ≤ 30 ∧ baseTracker.ghostParticles.length ≤ 20 ∧
    ((∀ (rand : ℕ → ℚ) (dt : ℚ),
      (updateParticles rand dt baseTracker).particles.length ≤ 30 ∧
      (updateParticles rand dt baseTracker).ghostParticles.length ≤ 20) ∧
    (∀ steps : List (ℚ × (ℕ → ℚ)),
      (runTicks baseTracker steps).1.particles.length ≤ 30 ∧
      (runTicks baseTracker steps).1.ghostParticles.length ≤ 20) ∧
    (∀ (cap : ℕ) (l : List Particle),
      capPool cap l = l.drop (l.length - cap))) :=
  ⟨by decide, by decide,
    particlePools_bounded_spec baseTracker (by decide) (by decide)⟩

theorem updateParticles_particles_eq (rand : ℕ → ℚ) (dt : ℚ) (s : Tracker) :
    (updateParticles rand dt s).particles =
      capPool 30 (cullPass dt 800 (s.particles ++ [primSpawn rand s])) := by
  rw [updateParticles_eq]
  split <;> rfl

/-- **C7 (amended).** On every tick, in every state: every particle
surviving the primary-pool update is some existing-or-just-spawned
particle decayed by exactly `dt / 800` and moved by its velocity, every
survivor has positive life, and so every particle whose life reaches
`<= 0` is removed in that tick.  On a tick where the ghost is active
(`showGhost` and `ghostTotalMs > 0`) the ghost pool behaves the same
with the 600 ms window; when the ghost is not active the ghost pool is
left completely untouched (no decay, no movement, no removal). -/
theorem updateParticles_decay_spec (rand : ℕ → ℚ) (dt : ℚ) (s : Tracker)
    (hsg : s.showGhost = true) (hgt : 0 < s.ghostTotalMs) :
    (∀ (r2 : ℕ → ℚ) (d2 : ℚ) (u : Tracker),
      (∀ q ∈ (updateParticles r2 d2 u).particles, 0 < q.life) ∧
      (∀ q ∈ (updateParticles r2 d2 u).particles,
        q ∈ (u.particles ++ [primSpawn r2 u]).map (decayMove d2 800)) ∧
      (∀ p ∈ u.particles, (decayMove d2 800 p).life ≤ 0 →
        decayMove d2 800 p ∉ (updateParticles r2 d2 u).particles)) ∧
    ((∀ q ∈ (updateParticles rand dt s).ghostParticles, 0 < q.life) ∧
     (∀ q ∈ (updateParticles rand dt s).ghostParticles,
        q ∈ (s.ghostParticles ++ [ghostSpawn rand s]).map (decayMove dt 600)) ∧
     (∀ p ∈ s.ghostParticles, (decayMove dt 600 p).life ≤ 0 →
        decayMove dt 600 p ∉ (updateParticles rand dt s).ghostParticles)) ∧
    (∀ (r2 : ℕ → ℚ) (d2 : ℚ) (u : Tracker),
      ¬ (u.showGhost = true ∧ 0 < u.ghostTotalMs) →
      (updateParticles r2 d2 u).ghostParticles = u.ghostParticles) := by
  have hcond : s.showGhost ∧ 0 < s.ghostTotalMs := by
    exact ⟨by simp [hsg], hgt⟩
  have hgh : (updateParticles rand dt s).ghostParticles =
      capPool 20 (cullPass dt 600 (s.ghostParticles ++ [ghostSpawn rand s])) := by
    rw [updateParticles_eq, if_pos hcond]
  refine ⟨?_, ⟨?_, ?_, ?_⟩, ?_⟩
  · intro r2 d2 u
    refine ⟨?_, ?_, ?_⟩
    · intro q hq
      rw [updateParticles_particles_eq] at hq
      exact ((cullPass_mem _ _ _ _).mp (capPool_subset _ _ q hq)).2
    · intro q hq
      rw [updateParticles_particles_eq] at hq
      exact ((cullPass_mem _ _ _ _).mp (capPool_subset _ _ q hq)).1
    · intro p hp hle hmem
      rw [updateParticles_particles_eq] at hmem
      have := ((cullPass_mem _ _ _ _).mp (capPool_subset _ _ _ hmem)).2
      linarith
  · intro q hq
    rw [hgh] at hq
    exact ((cullPass_mem _ _ _ _).mp (capPool_subset _ _ q hq)).2
  · intro q hq
    rw [hgh] at hq
    exact ((cullPass_mem _ _ _ _).mp (capPool_subset _ _ q hq)).1
  · intro p hp hle hmem
    rw [hgh] at hmem
    have := ((cullPass_mem _ _ _ _).mp (capPool_subset _ _ _ hmem)).2
    linarith
  · intro r2 d2 u hu
    rw [updateParticles_eq, if_neg (by simpa using hu)]

/-- A stale ghost particle left in the pool after the ghost was
deactivated. -/
def staleGhostParticle : Particle := ⟨50, 50, 1/10, 2, 0, 0⟩

/-- A tracker whose ghost is inactive but whose ghost pool is
non-empty (reachable by `toggleGhost()` or `setGhostSplits([])` after
ghost particles were spawned). -/
def staleTracker : Tracker := { baseTracker with ghostParticles := [staleGhostParticle] }

/-- **C7 counterexample.** On a tick with `dt = 100` the stale ghost
particle (life `1/10`) should, per the claim, decay by `100/600` to a
non-positive life and be removed — but because the ghost is inactive
the code leaves the ghost pool completely unchanged. -/
theorem updateParticles_ghost_inactive_cex :
    (updateParticles (fun _ => 0) 100 staleTracker).ghostParticles =
      [staleGhostParticle] ∧
    staleGhostParticle.life = 1/10 ∧
    (decayMove 100 600 staleGhostParticle).life ≤ 0 := by
  refine ⟨?_, rfl, ?_⟩
  · rw [updateParticles_eq, if_neg (by simp [staleTracker, baseTracker])]
    rfl
  · show (1/10 : ℚ) - 100 / 600 ≤ 0
    norm_num

/-- A tracker with an active ghost, used to instantiate the decay
theorem. -/
def ghostActiveTracker : Tracker :=
  { baseTracker with showGhost := true, ghostTotalMs := 4000 }

/-- **C7 witness.** The decay theorem instantiated on a concrete
ghost-active state. -/
theorem updateParticles_decay_spec_witness :
    ghostActiveTracker.showGhost = true ∧ (0 : ℚ) < ghostActiveTracker.ghostTotalMs ∧
    ((∀ (r2 : ℕ → ℚ) (d2 : ℚ) (u : Tracker),
      (∀ q ∈ (updateParticles r2 d2 u).particles, 0 < q.life) ∧
      (∀ q ∈ (updateParticles r2 d2 u).particles,
        q ∈ (u.particles ++ [primSpawn r2 u]).map (decayMove d2 800)) ∧
      (∀ p ∈ u.particles, (decayMove d2 800 p).life ≤ 0 →
        decayMove d2 800 p ∉ (updateParticles r2 d2 u).particles)) ∧
    ((∀ q ∈ (updateParticles (fun _ => 0) 16 ghostActiveTracker).ghostParticles, 0 < q.life) ∧
     (∀ q ∈ (updateParticles (fun _ => 0) 16 ghostActiveTracker).ghostParticles,
        q ∈ (ghostActiveTracker.ghostParticles ++
          [ghostSpawn (fun _ => 0) ghostActiveTracker]).map (decayMove 16 600)) ∧
     (∀ p ∈ ghostActiveTracker.ghostParticles, (decayMove 16 600 p).life ≤ 0 →
        decayMove 16 600 p ∉ (updateParticles (fun _ => 0) 16 ghostActiveTracker).ghostParticles)) ∧
    (∀ (r2 : ℕ → ℚ) (d2 : ℚ) (u : Tracker),
      ¬ (u.showGhost = true ∧ 0 < u.ghostTotalMs) →
      (updateParticles r2 d2 u).ghostParticles = u.ghostParticles)) :=
  ⟨rfl, by norm_num [ghostActiveTracker, baseTracker],
    updateParticles_decay_spec (fun _ => 0) 16 ghostActiveTracker rfl
      (by norm_num [ghostActiveTracker, baseTracker])⟩

/-! ## C3 — path endpoints -/

theorem getD_map_range {α : Type} (n k : ℕ) (f : ℕ → α) (d : α) (h : k < n) :
    ((List.range n).map f).getD k d = f k := by
  rw [List.getD_eq_getElem?_getD, List.getElem?_map, List.getElem?_range h]
  rfl

theorem head?_eq_getD {α : Type} [Inhabited α] (l : List α) (h : l ≠ []) :
    l.head? = some (l.getD 0 default) := by
  cases l with
  | nil => exact absurd rfl h
  | cons a t => rfl

theorem getLast?_eq_getD {α : Type} [Inhabited α] (l : List α) (h : l ≠ []) :
    l.getLast? = some (l.getD (l.length - 1) default) := by
  rw [List.getLast?_eq_getElem?, List.getD_eq_getElem?_getD]
  cases hx : l[l.length - 1]? with
  | none =>
    rw [List.getElem?_eq_none_iff] at hx
    have : l.length ≠ 0 := fun hz => h (List.length_eq_zero.mp hz)
    omega
  | some v => rfl

theorem catmullRomPoint_zero (p0 p1 p2 p3 : Point) :
    catmullRomPoint 0 p0 p1 p2 p3 = p1 := by
  cases p1
  unfold catmullRomPoint
  simp only [Point.mk.injEq]
  constructor <;> ring

theorem linearPath_length (p0 p1 : Point) (seg : ℕ) :
    (linearPath p0 p1 seg).length = seg + 1 := by
  unfold linearPath
  exact (List.length_map _ _).trans (List.length_range _)

theorem segPoints_length (pts : List Point) (seg i : ℕ) :
    (segPoints pts seg i).length = seg := by
  unfold segPoints
  exact (List.length_map _ _).trans (List.length_range _)

theorem splineSegs_flatten_length (pts : List Point) (seg : ℕ) :
    (((List.range (pts.length - 1)).map (segPoints pts seg)).flatten).length =
      (pts.length - 1) * seg := by
  rw [List.length_flatten, List.map_map]
  have h1 : (List.length ∘ segPoints pts seg) = fun _ : ℕ => seg := by
    funext i
    exact segPoints_length pts seg i
  rw [h1]
  induction (pts.length - 1) with
  | zero => simp
  | succ k ih =>
    rw [List.range_succ, List.map_append, List.sum_append]
    simp [ih, Nat.succ_mul]

theorem generateSplinePath_length (pts : List Point) (seg : ℕ)
    (hne : pts ≠ []) :
    (generateSplinePath pts seg).length = (pts.length - 1) * seg + 1 := by
  unfold generateSplinePath
  by_cases h1 : pts.length < 2
  · rw [if_pos h1]
    have hlen : pts.length = 1 := by
      have : pts.length ≠ 0 := fun hz => hne (List.length_eq_zero.mp hz)
      omega
    rw [List.length_map, hlen]
    norm_num
  · rw [if_neg h1]
    by_cases h2 : pts.length = 2
    · rw [if_pos h2, linearPath_length, h2]
      norm_num
    · rw [if_neg h2]
      rw [List.length_append, splineSegs_flatten_length]
      rfl

theorem generateSplinePath_head (pts : List Point) (seg : ℕ)
    (hne : pts ≠ []) (hseg : 1 ≤ seg) :
    (generateSplinePath pts seg).getD 0 default = pts.getD 0 default := by
  unfold generateSplinePath
  by_cases h1 : pts.length < 2
  · rw [if_pos h1]
    cases pts with
    | nil => exact absurd rfl hne
    | cons a t => simp
  · rw [if_neg h1]
    by_cases h2 : pts.length = 2
    · rw [if_pos h2]
      unfold linearPath
      rw [getD_map_range _ 0 _ _ (by omega)]
      norm_num
    · rw [if_neg h2]
      have hflatlen :
          0 < (((List.range (pts.length - 1)).map (segPoints pts seg)).flatten).length := by
        rw [splineSegs_flatten_length]
        exact Nat.mul_pos (by omega) (by omega)
      rw [List.getD_append _ _ _ _ hflatlen]
      obtain ⟨m, hm⟩ : ∃ m, pts.length - 1 = m + 1 := ⟨pts.length - 2, by omega⟩
      rw [hm, List.range_succ_eq_map, List.map_cons, List.flatten_cons]
      rw [List.getD_append _ _ _ _ (by rw [segPoints_length]; omega)]
      unfold segPoints
      rw [getD_map_range _ 0 _ _ (by omega)]
      norm_num [catmullRomPoint_zero]

theorem generateSplinePath_last (pts : List Point) (seg : ℕ)
    (hne : pts ≠ []) (hseg : 1 ≤ seg) :
    (generateSplinePath pts seg).getD ((pts.length - 1) * seg) default =
      pts.getD (pts.length - 1) default := by
  unfold generateSplinePath
  by_cases h1 : pts.length < 2
  · rw [if_pos h1]
    have hlen : pts.length = 1 := by
      have : pts.length ≠ 0 := fun hz => hne (List.length_eq_zero.mp hz)
      omega
    cases pts with
    | nil => exact absurd rfl hne
    | cons a t =>
      have : t = [] := by
        simp only [List.length_cons] at hlen
        exact List.length_eq_zero.mp (by omega)
      subst this
      simp
  · rw [if_neg h1]
    by_cases h2 : pts.length = 2
    · rw [if_pos h2]
      obtain ⟨a, b, rfl⟩ := List.length_eq_two.mp h2
      unfold linearPath
      simp only [List.length_cons, List.length_nil]
      rw [getD_map_range _ ((2 - 1) * seg) _ _ (by omega)]
      have hs : ((seg : ℚ)) ≠ 0 := by
        exact_mod_cast Nat.pos_iff_ne_zero.mp (by omega)
      have hcast : (((2 - 1) * seg : ℕ) : ℚ) = (seg : ℚ) := by
        norm_num
      rw [hcast, div_self hs]
      simp only [List.getD_cons_zero, List.getD_cons_succ]
      cases b
      simp only [Point.mk.injEq]
      constructor <;> ring
    · rw [if_neg h2]
      rw [List.getD_append_right _ _ _ _
        (by rw [splineSegs_flatten_length])]
      rw [splineSegs_flatten_length, Nat.sub_self]
      simp

theorem getPositionAtProgress_zero (path : List Point) (h : path ≠ []) :
    getPositionAtProgress path 0 = path.getD 0 default := by
  unfold getPositionAtProgress
  rw [if_neg (by simpa using h)]
  rw [show max 0 (min 1 (0:ℚ)) = 0 by norm_num]
  norm_num

theorem getPositionAtProgress_one (path : List Point) (h : path ≠ []) :
    getPositionAtProgress path 1 = path.getD (path.length - 1) default := by
  unfold getPositionAtProgress
  rw [if_neg (by simpa using h)]
  have h1 : 1 ≤ path.length := by
    cases path with
    | nil => exact absurd rfl h
    | cons a t => simp
  rw [show max 0 (min 1 (1:ℚ)) = 1 by norm_num]
  simp only [one_mul]
  rw [show ((path.length : ℚ) - 1) = ((path.length - 1 : ℕ) : ℚ) by
    push_cast [h1]; ring]
  rw [Int.floor_natCast, Int.toNat_natCast]
  rw [show min (path.length - 1 + 1) (path.length - 1) = path.length - 1 by omega]
  rw [sub_self]
  simp

/-- **C3.** For every non-empty station sequence and `samplesPerSegment
>= 1`, the generated path starts exactly at the first station's
coordinates and ends exactly at the last station's coordinates, and
`positionAtProgress` at 0 and 1 returns exactly those coordinates. -/
theorem splinePath_endpoints_spec (pts : List Point) (seg : ℕ)
    (hne : pts ≠ []) (hseg : 1 ≤ seg) :
    (generateSplinePath pts seg).head? = some (pts.getD 0 default) ∧
    (generateSplinePath pts seg).getLast? =
      some (pts.getD (pts.length - 1) default) ∧
    getPositionAtProgress (generateSplinePath pts seg) 0 = pts.getD 0 default ∧
    getPositionAtProgress (generateSplinePath pts seg) 1 =
      pts.getD (pts.length - 1) default := by
  have hplen : (generateSplinePath pts seg).length = (pts.length - 1) * seg + 1 :=
    generateSplinePath_length pts seg hne
  have hpne : generateSplinePath pts seg ≠ [] := by
    intro hz
    rw [hz] at hplen
    simp at hplen
  have hhead := generateSplinePath_head pts seg hne hseg
  have hlast := generateSplinePath_last pts seg hne hseg
  refine ⟨?_, ?_, ?_, ?_⟩
  · rw [head?_eq_getD _ hpne, hhead]
  · rw [getLast?_eq_getD _ hpne, hplen]
    simpa using hlast
  · rw [getPositionAtProgress_zero _ hpne, hhead]
  · rw [getPositionAtProgress_one _ hpne, hplen]
    simpa using hlast

/-- **C3 witness.** The endpoint theorem instantiated on the
three-station course `(0,0), (100,0), (100,100)` with one sample per
segment. -/
theorem splinePath_endpoints_spec_witness :
    ([⟨0, 0⟩, ⟨100, 0⟩, ⟨100, 100⟩] : List Point) ≠ [] ∧ 1 ≤ 1 ∧
    ((generateSplinePath [⟨0, 0⟩, ⟨100, 0⟩, ⟨100, 100⟩] 1).head? =
      some (([⟨0, 0⟩, ⟨100, 0⟩, ⟨100, 100⟩] : List Point).getD 0 default) ∧
    (generateSplinePath [⟨0, 0⟩, ⟨100, 0⟩, ⟨100, 100⟩] 1).getLast? =
      some (([⟨0, 0⟩, ⟨100, 0⟩, ⟨100, 100⟩] : List Point).getD
        (([⟨0, 0⟩, ⟨100, 0⟩, ⟨100, 100⟩] : List Point).length - 1) default) ∧
    getPositionAtProgress (generateSplinePath [⟨0, 0⟩, ⟨100, 0⟩, ⟨100, 100⟩] 1) 0 =
      ([⟨0, 0⟩, ⟨100, 0⟩, ⟨100, 100⟩] : List Point).getD 0 default ∧
    getPositionAtProgress (generateSplinePath [⟨0, 0⟩, ⟨100, 0⟩, ⟨100, 100⟩] 1) 1 =
      ([⟨0, 0⟩, ⟨100, 0⟩, ⟨100, 100⟩] : List Point).getD
        (([⟨0, 0⟩, ⟨100, 0⟩, ⟨100, 100⟩] : List Point).length - 1) default) :=
  ⟨by simp, by norm_num,
    splinePath_endpoints_spec [⟨0, 0⟩, ⟨100, 0⟩, ⟨100, 100⟩] 1 (by simp) (by norm_num)⟩

/-! ## C9 — station progress map -/

theorem pathDists_length (path : List Point) :
    (pathDists path).length = path.length - 1 := by
  induction path with
  | nil => rfl
  | cons p rest ih =>
    cases rest with
    | nil => rfl
    | cons q t =>
      simp only [pathDists, List.length_cons] at ih ⊢
      omega

theorem pathDists_nonneg (path : List Point) : ∀ d ∈ pathDists path, 0 ≤ d := by
  induction path with
  | nil => simp [pathDists]
  | cons p rest ih =>
    cases rest with
    | nil => simp [pathDists]
    | cons q t =>
      intro d hd
      rw [pathDists, List.mem_cons] at hd
      rcases hd with rfl | hd
      · exact Real.sqrt_nonneg _
      · exact ih d hd

theorem cumFrom_chain (ds : List ℝ) :
    ∀ acc : ℝ, (∀ d ∈ ds, 0 ≤ d) →
      (acc :: cumFrom acc ds).Chain' (· ≤ ·) := by
  induction ds with
  | nil =>
    intro acc h
    simp [cumFrom]
  | cons d t ih =>
    intro acc h
    rw [cumFrom, List.chain'_cons]
    refine ⟨by have := h d (by simp); linarith, ?_⟩
    exact ih (acc + d) fun x hx => h x (by simp [hx])

theorem cumFrom_length (ds : List ℝ) : ∀ acc : ℝ, (cumFrom acc ds).length = ds.length := by
  induction ds with
  | nil => intro acc; rfl
  | cons d t ih =>
    intro acc
    simp only [cumFrom, List.length_cons, ih]

theorem cumFrom_getLast? (ds : List ℝ) :
    ∀ acc : ℝ, (acc :: cumFrom acc ds).getLast? = some (acc + ds.sum) := by
  induction ds with
  | nil =>
    intro acc
    simp [cumFrom]
  | cons d t ih =>
    intro acc
    rw [cumFrom, List.getLast?_cons_cons, ih (acc + d)]
    simp only [List.sum_cons, Option.some.injEq]
    ring

theorem chain_div (l : List ℝ) (c : ℝ) (hc : 0 ≤ c)
    (h : l.Chain' (· ≤ ·)) : (l.map (· / c)).Chain' (· ≤ ·) := by
  rw [List.chain'_map]
  refine h.imp fun a b hab => ?_
  rcases hc.eq_or_lt with rfl | hpos
  · simp
  · exact (div_le_div_right hpos).mpr hab

theorem chain_getD_mono (l : List ℝ) (h : l.Chain' (· ≤ ·)) (i j : ℕ)
    (hij : i ≤ j) (hj : j < l.length) :
    l.getD i 0 ≤ l.getD j 0 := by
  have hs := List.chain'_iff_pairwise.mp h
  have hi : i < l.length := lt_of_le_of_lt hij hj
  rw [List.getD_eq_getElem l 0 hi, List.getD_eq_getElem l 0 hj]
  rcases eq_or_lt_of_le hij with rfl | hlt
  · exact le_refl _
  · have := List.pairwise_iff_get.mp hs ⟨i, hi⟩ ⟨j, hj⟩ hlt
    simpa using this

theorem getD_map_div (l : List ℝ) (c : ℝ) (k : ℕ) (hk : k < l.length) :
    (l.map (· / c)).getD k 0 = l.getD k 0 / c := by
  rw [List.getD_eq_getElem _ 0 (by simpa using hk), List.getElem_map,
      List.getD_eq_getElem _ 0 hk]

theorem sum_nonneg_all_zero (l : List ℝ) (h : ∀ d ∈ l, 0 ≤ d)
    (hsum : l.sum = 0) : ∀ d ∈ l, d = 0 := by
  induction l with
  | nil => simp
  | cons a t ih =>
    have ha := h a (by simp)
    have ht : ∀ d ∈ t, 0 ≤ d := fun d hd => h d (by simp [hd])
    have htsum : 0 ≤ t.sum := List.sum_nonneg ht
    rw [List.sum_cons] at hsum
    intro d hd
    rcases List.mem_cons.mp hd with rfl | hd
    · linarith
    · exact ih ht (by linarith) d hd

theorem segDist_eq_zero (p q : Point) (h : segDist p q = 0) : p = q := by
  unfold segDist at h
  have hnn : (0:ℝ) ≤ ((q.x - p.x : ℚ) : ℝ) ^ 2 + ((q.y - p.y : ℚ) : ℝ) ^ 2 := by
    positivity
  have h2 : ((q.x - p.x : ℚ) : ℝ) ^ 2 + ((q.y - p.y : ℚ) : ℝ) ^ 2 = 0 :=
    (Real.sqrt_eq_zero hnn).mp h
  have hx : ((q.x - p.x : ℚ) : ℝ) = 0 := by
    nlinarith [sq_nonneg ((q.x - p.x : ℚ) : ℝ), sq_nonneg ((q.y - p.y : ℚ) : ℝ)]
  have hy : ((q.y - p.y : ℚ) : ℝ) = 0 := by
    nlinarith [sq_nonneg ((q.x - p.x : ℚ) : ℝ), sq_nonneg ((q.y - p.y : ℚ) : ℝ)]
  have hx2 : q.x - p.x = 0 := by exact_mod_cast hx
  have hy2 : q.y - p.y = 0 := by exact_mod_cast hy
  cases p
  cases q
  simp only [Point.mk.injEq]
  simp only at hx2 hy2
  constructor <;> linarith

theorem path_const_of_dists_zero (path : List Point)
    (h : ∀ d ∈ pathDists path, d = 0) :
    path.getD 0 default = path.getD (path.length - 1) default := by
  induction path with
  | nil => rfl
  | cons p rest ih =>
    cases rest with
    | nil => rfl
    | cons q t =>
      have hpq : p = q := segDist_eq_zero p q (h _ (by rw [pathDists]; simp))
      have ht : ∀ d ∈ pathDists (q :: t), d = 0 := fun d hd =>
        h d (by rw [pathDists]; simp [hd])
      have hrec := ih ht
      subst hpq
      simp only [List.length_cons, List.getD_cons_zero, Nat.add_sub_cancel,
        List.getD_cons_succ] at hrec ⊢
      exact hrec

theorem computeArcLengths_eq (path : List Point) (h : ¬ path.length < 2) :
    computeArcLengths path =
      (0 :: cumFrom 0 (pathDists path)).map (· / (pathDists path).sum) := by
  unfold computeArcLengths
  rw [if_neg h]

theorem computeArcLengths_length (path : List Point) (h : ¬ path.length < 2) :
    (computeArcLengths path).length = path.length := by
  rw [computeArcLengths_eq path h, List.length_map, List.length_cons,
      cumFrom_length, pathDists_length]
  omega

theorem computeArcLengths_chain (path : List Point) (h : ¬ path.length < 2) :
    (computeArcLengths path).Chain' (· ≤ ·) := by
  rw [computeArcLengths_eq path h]
  exact chain_div _ _ (List.sum_nonneg (pathDists_nonneg path))
    (cumFrom_chain _ 0 (pathDists_nonneg path))

theorem computeArcLengths_head (path : List Point) (h : ¬ path.length < 2) :
    (computeArcLengths path).getD 0 0 = 0 := by
  rw [computeArcLengths_eq path h, getD_map_div _ _ 0 (by simp)]
  simp

theorem computeArcLengths_last (path : List Point) (h : ¬ path.length < 2)
    (htot : (pathDists path).sum ≠ 0) :
    (computeArcLengths path).getD (path.length - 1) 0 = 1 := by
  rw [computeArcLengths_eq path h]
  have hlen : (0 :: cumFrom 0 (pathDists path)).length = path.length := by
    rw [List.length_cons, cumFrom_length, pathDists_length]
    omega
  rw [getD_map_div _ _ _ (by rw [hlen]; omega)]
  have hlast := cumFrom_getLast? (pathDists path) 0
  rw [getLast?_eq_getD (0 :: cumFrom 0 (pathDists path)) (by simp)] at hlast
  rw [hlen] at hlast
  have hval := Option.some.inj hlast
  rw [show (default : ℝ) = 0 from rfl] at hval
  rw [hval, zero_add, div_self htot]

theorem total_pos_of_nodup (pts : List Point) (seg : ℕ)
    (h2 : 2 ≤ pts.length) (hnd : pts.Nodup) (hseg : 1 ≤ seg) :
    (pathDists (generateSplinePath pts seg)).sum ≠ 0 := by
  intro hz
  have hne : pts ≠ [] := by
    intro h
    rw [h] at h2
    simp at h2
  have hall := sum_nonneg_all_zero _ (pathDists_nonneg _) hz
  have hconst := path_const_of_dists_zero _ hall
  rw [generateSplinePath_head pts seg hne hseg,
      generateSplinePath_length pts seg hne,
      show ((pts.length - 1) * seg + 1 - 1) = (pts.length - 1) * seg from by omega,
      generateSplinePath_last pts seg hne hseg] at hconst
  have h0 : 0 < pts.length := by omega
  have hn1 : pts.length - 1 < pts.length := by omega
  rw [List.getD_eq_getElem _ _ h0, List.getD_eq_getElem _ _ hn1] at hconst
  have heq := (List.Nodup.getElem_inj_iff hnd).mp hconst
  omega

/-- **C9.** For at least two pairwise-distinct stations and
`samplesPerSegment >= 1`, the station progress map (the value of
`stationToProgress` at each station index in order) is non-decreasing,
maps the first station to `0` and the last station to `1`. -/
theorem stationProgress_monotone_spec (pts : List Point) (seg : ℕ)
    (h2 : 2 ≤ pts.length) (hnd : pts.Nodup) (hseg : 1 ≤ seg) :
    ((List.range pts.length).map fun i =>
        stationToProgress i pts.length
          (computeArcLengths (generateSplinePath pts seg)) seg).Chain' (· ≤ ·) ∧
    ((List.range pts.length).map fun i =>
        stationToProgress i pts.length
          (computeArcLengths (generateSplinePath pts seg)) seg).getD 0 0 = 0 ∧
    ((List.range pts.length).map fun i =>
        stationToProgress i pts.length
          (computeArcLengths (generateSplinePath pts seg)) seg).getD
      (pts.length - 1) 0 = 1 := by
  have hne : pts ≠ [] := by
    intro h
    rw [h] at h2
    simp at h2
  have hplen := generateSplinePath_length pts seg hne
  have hnot2 : ¬ (generateSplinePath pts seg).length < 2 := by
    rw [hplen]
    have hp : 1 ≤ (pts.length - 1) * seg :=
      Nat.one_le_iff_ne_zero.mpr (Nat.mul_ne_zero (by omega) (by omega))
    omega
  have harclen := computeArcLengths_length _ hnot2
  have harcchain := computeArcLengths_chain _ hnot2
  have hn1 : ¬ pts.length ≤ 1 := by omega
  have hlpos : 0 < (computeArcLengths (generateSplinePath pts seg)).length := by
    rw [harclen, hplen]
    omega
  have hf : ∀ i : ℕ, stationToProgress i pts.length
      (computeArcLengths (generateSplinePath pts seg)) seg =
      (computeArcLengths (generateSplinePath pts seg)).getD
        (min (i * seg)
          ((computeArcLengths (generateSplinePath pts seg)).length - 1)) 0 := by
    intro i
    unfold stationToProgress
    rw [if_neg hn1]
  refine ⟨?_, ?_, ?_⟩
  · rw [List.chain'_map]
    rw [show List.range pts.length = List.range ((pts.length - 1) + 1) from by
      congr 1
      omega]
    rw [List.chain'_range_succ]
    intro k hk
    rw [hf k, hf (k + 1)]
    apply chain_getD_mono _ harcchain
    · exact min_le_min (Nat.mul_le_mul (by omega) (le_refl seg)) (le_refl _)
    · omega
  · rw [getD_map_range _ 0 _ _ (by omega), hf 0]
    rw [show min (0 * seg)
        ((computeArcLengths (generateSplinePath pts seg)).length - 1) = 0 from by
      omega]
    exact computeArcLengths_head _ hnot2
  · rw [getD_map_range _ (pts.length - 1) _ _ (by omega), hf (pts.length - 1)]
    have hidx : min ((pts.length - 1) * seg)
        ((computeArcLengths (generateSplinePath pts seg)).length - 1) =
        (generateSplinePath pts seg).length - 1 := by
      rw [harclen, hplen]
      omega
    rw [hidx]
    exact computeArcLengths_last _ hnot2 (total_pos_of_nodup pts seg h2 hnd hseg)

/-- **C9 witness.** The station-progress theorem instantiated on two
distinct stations with one sample per segment. -/
theorem stationProgress_monotone_spec_witness :
    2 ≤ ([⟨0, 0⟩, ⟨10, 0⟩] : List Point).length ∧
    ([⟨0, 0⟩, ⟨10, 0⟩] : List Point).Nodup ∧ 1 ≤ 1 ∧
    (((List.range ([⟨0, 0⟩, ⟨10, 0⟩] : List Point).length).map fun i =>
        stationToProgress i ([⟨0, 0⟩, ⟨10, 0⟩] : List Point).length
          (computeArcLengths (generateSplinePath [⟨0, 0⟩, ⟨10, 0⟩] 1)) 1).Chain'
        (· ≤ ·) ∧
    ((List.range ([⟨0, 0⟩, ⟨10, 0⟩] : List Point).length).map fun i =>
        stationToProgress i ([⟨0, 0⟩, ⟨10, 0⟩] : List Point).length
          (computeArcLengths (generateSplinePath [⟨0, 0⟩, ⟨10, 0⟩] 1)) 1).getD 0 0 = 0 ∧
    ((List.range ([⟨0, 0⟩, ⟨10, 0⟩] : List Point).length).map fun i =>
        stationToProgress i ([⟨0, 0⟩, ⟨10, 0⟩] : List Point).length
          (computeArcLengths (generateSplinePath [⟨0, 0⟩, ⟨10, 0⟩] 1)) 1).getD
      (([⟨0, 0⟩, ⟨10, 0⟩] : List Point).length - 1) 0 = 1) :=
  ⟨by norm_num, by norm_num [List.nodup_cons, Point.mk.injEq], by norm_num,
    stationProgress_monotone_spec [⟨0, 0⟩, ⟨10, 0⟩] 1 (by norm_num)
      (by norm_num [List.nodup_cons, Point.mk.injEq]) (by norm_num)⟩
